import Mathlib

/-!
Verification of the `printer` Go package (repository cruffinoni/printer).

The development shallowly embeds the current revision of the package
(`writer.go`, `flags.go`, `level.go`, `color.go`) into Lean.  Byte buffers
(`[]byte`) and strings are modelled as `List Char` (all inputs of interest
are ASCII, where Go bytes and runes coincide), Go `int` as `Int`,
Go maps as association lists, and the two output sinks as explicit
write/close behaviours.  Every definition mirrors one Go function and is
executable, so concrete runs of the code can be checked by `decide`/`rfl`.
-/

namespace PrinterGo

/-! ### Flags (src/flags.go) -/

/-- Bit constant `FlagWithDate` (`1 << 1` in the `iota` block of flags.go). -/
def FlagWithDate : Nat := 2

/-- Bit constant `FlagWithGoroutineID`.  The snapshot of flags.go documents this
flag (its doc comment is present and `writer.go` uses the identifier) but the
declaration line itself was dropped from the const block; it is modelled at its
documented position, between `FlagWithDate` and `FlagWithColor`. -/
def FlagWithGoroutineID : Nat := 4

/-- Bit constant `FlagWithColor`. -/
def FlagWithColor : Nat := 8

/-- Bit constant `FlagPanicOnError`. -/
def FlagPanicOnError : Nat := 16

/-- Bit constant `FlagWithoutNewLine`. -/
def FlagWithoutNewLine : Nat := 32

/-- Bit constant `FlagTruncateLogs`. -/
def FlagTruncateLogs : Nat := 64

/-- Bit constant `FlagMaxLogLength`. -/
def FlagMaxLogLength : Nat := 128

/-- Bit constant `FlagTruncateFields`. -/
def FlagTruncateFields : Nat := 256

/-- Bit constant `FlagMaxFieldLength`. -/
def FlagMaxFieldLength : Nat := 512

/-- Constant `DefaultMaxLogLength` from flags.go. -/
def DefaultMaxLogLength : Int := 100

/-- Constant `DefaultMaxFieldLength` from flags.go. -/
def DefaultMaxFieldLength : Int := 50

/-! ### Levels (src/level.go) -/

/-- Level constant `LevelError` (Go `Levels` is an `int`). -/
def LevelError : Int := 0

/-- Level constant `LevelWarn`. -/
def LevelWarn : Int := 1

/-- Level constant `LevelInfo`. -/
def LevelInfo : Int := 2

/-- Level constant `LevelDebug`. -/
def LevelDebug : Int := 3

/-- Method `Levels.String` from level.go. -/
def levelString (l : Int) : List Char :=
  if l = LevelError then "ERROR".data
  else if l = LevelWarn then "WARN".data
  else if l = LevelInfo then "INFO".data
  else if l = LevelDebug then "DEBUG".data
  else "UNKNOWN".data

/-- Method `Levels.GetColor` from level.go. -/
def levelGetColor (l : Int) : List Char :=
  if l = LevelError then "F_RED,BOLD".data
  else if l = LevelWarn then "F_YELLOW,BOLD".data
  else if l = LevelInfo then "F_GREEN,BOLD".data
  else if l = LevelDebug then "F_BLUE,BOLD".data
  else "F_WHITE,BOLD".data

/-! ### Color tables (src/color.go) -/

/-- SGR base for background colors (`BackgroundBlack` in color.go). -/
def BackgroundBlack : Nat := 40

/-- SGR base for foreground colors (`ForegroundBlack` in color.go). -/
def ForegroundBlack : Nat := 30

/-- The `colorValues` map from color.go, as an association list. -/
def colorValues : List (List Char × Nat) :=
  [("black".data, 0), ("red".data, 1), ("green".data, 2), ("yellow".data, 3),
   ("blue".data, 4), ("magenta".data, 5), ("cyan".data, 6), ("white".data, 7)]

/-- The `colorOptions` map from color.go, as an association list.  Note the key
`"slowBlink"` is spelled with a capital `B` in the source. -/
def colorOptions : List (List Char × Nat) :=
  [("reset".data, 0), ("bold".data, 1), ("faint".data, 2),
   ("underlined".data, 4), ("slowBlink".data, 5)]

/-- Go map lookup on an association-list model of a `map[string]int`. -/
def lookupAssoc : List (List Char × Nat) → List Char → Option Nat
  | [], _ => none
  | (k, v) :: t, key => if k = key then some v else lookupAssoc t key

/-! ### Character and list helpers (models of Go library calls) -/

/-- The opening curly-brace character. -/
def lbrace : Char := Char.ofNat 123

/-- The closing curly-brace character. -/
def rbrace : Char := Char.ofNat 125

/-- ASCII `strings.ToLower` on a single character (the inputs reaching
`ToLower` in formatColor are ASCII word characters, where Go ToLower is
exactly ASCII lowercasing). -/
def asciiLower (c : Char) : Char :=
  if 65 ≤ c.toNat ∧ c.toNat ≤ 90 then Char.ofNat (c.toNat + 32) else c

/-- Model of `strings.ToLower` on ASCII content. -/
def toLowerL (s : List Char) : List Char := s.map asciiLower

/-- Model of `bytes.HasPrefix` (first argument is the pattern). -/
def leadMatch : List Char → List Char → Bool
  | [], _ => true
  | _ :: _, [] => false
  | a :: as, b :: bs => a == b && leadMatch as bs

/-- Model of `bytes.HasSuffix s pat`. -/
def hasSuffixL (s pat : List Char) : Bool := leadMatch pat.reverse s.reverse

/-- Model of decimal digit printing: the character for digit `d < 10`. -/
def digitChar (d : Nat) : Char := Char.ofNat (48 + d)

/-- Fuel-driven core of decimal formatting (`%d` for a natural number). -/
def natToDecAux : Nat → Nat → List Char
  | 0, _ => []
  | fuel + 1, n =>
      if n < 10 then [digitChar n]
      else natToDecAux fuel (n / 10) ++ [digitChar (n % 10)]

/-- Model of Go `%d` applied to a non-negative integer. -/
def natToDec (n : Nat) : List Char := natToDecAux (n + 1) n

/-- Model of Go `%d` applied to a Go `int`. -/
def intToDec (n : Int) : List Char :=
  if n < 0 then '-' :: natToDec n.natAbs else natToDec n.natAbs

/-- Model of `bytes.Split` on the separator `","`. -/
def splitComma : List Char → List (List Char)
  | [] => [[]]
  | c :: rest =>
      let r := splitComma rest
      if c = ',' then [] :: r
      else
        match r with
        | h :: t => (c :: h) :: t
        | [] => [[c]]

/-- Fuel-driven model of `bytes.ReplaceAll` (the pattern is never empty at
the call sites in formatColor, and fuel `s.length` always suffices because
every step consumes at least one character of `s`). -/
def replaceAllAux : Nat → List Char → List Char → List Char → List Char
  | 0, s, _, _ => s
  | fuel + 1, s, pat, rep =>
      match s with
      | [] => []
      | c :: t =>
          if pat ≠ [] ∧ leadMatch pat s then
            rep ++ replaceAllAux fuel (s.drop pat.length) pat rep
          else
            c :: replaceAllAux fuel t pat rep

/-- Model of `bytes.ReplaceAll s pat rep`. -/
def replaceAll (s pat rep : List Char) : List Char :=
  replaceAllAux s.length s pat rep

/-! ### The color markup engine (formatColor in src/writer.go) -/

/-- Character class of the regex body `[\w,_]` (RE2 `\w` is `[0-9A-Za-z_]`). -/
def isWordComma (c : Char) : Bool :=
  c.isAlpha || c.isDigit || c == '_' || c == ','

/-- Attempt to match the token regex (three opening braces, an optional
hyphen, a run of word/comma characters, three closing braces) at the head of
`s`.  On success, returns the whole matched text, the captured body and the
remaining input.  Greedy matching is exact here: the body run is maximal and
backtracking can never succeed, because a character given back by the star
would be a word character while the closer is a brace. -/
def matchToken (s : List Char) : Option (List Char × List Char × List Char) :=
  match s with
  | a :: b :: c :: rest =>
      if a = lbrace ∧ b = lbrace ∧ c = lbrace then
        let dashed := match rest with
          | d :: r => if d = '-' then (['-'], r) else (([] : List Char), rest)
          | [] => (([] : List Char), rest)
        let body := dashed.2.takeWhile isWordComma
        let rest2 := dashed.2.drop body.length
        match rest2 with
        | d :: e :: f :: rest3 =>
            if d = rbrace ∧ e = rbrace ∧ f = rbrace then
              some (lbrace :: lbrace :: lbrace ::
                      (dashed.1 ++ body ++ [rbrace, rbrace, rbrace]),
                    body, rest3)
            else none
        | _ => none
      else none
  | _ => none

/-- Fuel-driven scan for all non-overlapping token matches, left to right
(model of `colorFinderRegex.FindAllSubmatch`); each element is the pair of
the whole match and the captured group. -/
def findTokensAux : Nat → List Char → List (List Char × List Char)
  | 0, _ => []
  | fuel + 1, s =>
      match s with
      | [] => []
      | c :: t =>
          match matchToken (c :: t) with
          | some (whole, body, rest3) => (whole, body) :: findTokensAux fuel rest3
          | none => findTokensAux fuel t

/-- All token matches of the color regex in a buffer. -/
def findTokens (s : List Char) : List (List Char × List Char) :=
  findTokensAux s.length s

/-- Per-component output of the formatColor loop body: prefix dispatch on
`B_`/`F_`, case-insensitive table lookup, and the literal diagnostic
placeholder text on a miss. -/
def renderComp (c : List Char) : List Char :=
  if leadMatch "B_".data c then
    let color := c.drop 2
    match lookupAssoc colorValues (toLowerL color) with
    | some col => natToDec (col + BackgroundBlack) ++ [';']
    | none => "%B_COLOR_NOT_FOUND%".data ++ c ++ ['%']
  else if leadMatch "F_".data c then
    let color := c.drop 2
    match lookupAssoc colorValues (toLowerL color) with
    | some col => natToDec (col + ForegroundBlack) ++ [';']
    | none => "%F_COLOR_NOT_FOUND%".data ++ c ++ ['%']
  else
    match lookupAssoc colorOptions (toLowerL c) with
    | some opt => natToDec opt ++ [';']
    | none => "%NOT_FOUND%".data ++ c ++ ['%']

/-- Replacement text built for one token body: the escape lead-in, the
concatenated component renderings with the final character trimmed
(`output.Truncate(output.Len()-1)`), then the terminator `m`. -/
def tokenRepl (body : List Char) : List Char :=
  let full := "\x1b[".data ++ ((splitComma body).map renderComp).flatten
  full.dropLast ++ ['m']

/-- Runtime value attachable as a structured log field (`any` in Go);
the constructors cover the value kinds the fields machinery distinguishes:
`%q` formatting applies exactly to the string case, every other case goes
through generic `%v` stringification. -/
inductive GoValue where
  | str (s : List Char)
  | int (n : Int)
  | bool (b : Bool)
deriving DecidableEq

/-- An `io.WriteCloser` sink modelled behaviourally: `write` maps the written
bytes to either a byte count or an error, and `closeRes` is the outcome of
closing the sink (`none` = success, matching a Go `nil` error). -/
structure GoSink where
  write : List Char → Except String Nat
  closeRes : Option String

/-- Shallow embedding of the `Printer` struct of the current writer.go.  An
`Option` sink value of `none` models a `nil` handle.  The mutex is irrelevant
to the sequential claims and is not represented.  `fields` is an association
list standing for the Go map; its order is irrelevant to all observable
output because rendered fields are sorted before use. -/
structure Printer where
  out : Option GoSink
  err : Option GoSink
  logLevel : Int
  flags : Nat
  fields : List (List Char × GoValue)
  maxLogLength : Int
  maxFieldLength : Int

/-- Constructor `NewPrinter` from writer.go: ORs `FlagPanicOnError` into the
supplied flags, starts with an empty field map, and seeds the truncation
limits from the default constants when the corresponding flags are set. -/
def NewPrinter (loglevel : Int) (flags : Nat) (out err : Option GoSink) : Printer :=
  { out := out
    err := err
    logLevel := loglevel
    flags := flags ||| FlagPanicOnError
    fields := []
    maxLogLength := if flags &&& FlagTruncateLogs ≠ 0 then DefaultMaxLogLength else 0
    maxFieldLength := if flags &&& FlagTruncateFields ≠ 0 then DefaultMaxFieldLength else 0 }

/-- Method `formatColor` from writer.go: returns the buffer unchanged when the
color flag is off or no token matches; otherwise folds over the matches,
replacing every literal occurrence of each matched token text by its SGR
replacement, and finally appends the trailing full reset sequence. -/
def formatColor (p : Printer) (buffer : List Char) : List Char :=
  if p.flags &&& FlagWithColor = 0 then buffer
  else
    let f := findTokens buffer
    if f = [] then buffer
    else
      let buf := f.foldl (fun b m => replaceAll b m.1 (tokenRepl m.2)) buffer
      buf ++ "\x1b[0m".data

/-- Method `truncateLog` from writer.go. -/
def truncateLog (p : Printer) (s : List Char) : List Char :=
  if p.flags &&& FlagTruncateLogs ≠ 0 ∧ p.maxLogLength > 0 ∧
      (s.length : Int) > p.maxLogLength then
    s.take p.maxLogLength.toNat
  else s

/-- Method `truncateField` from writer.go. -/
def truncateField (p : Printer) (field : List Char) : List Char :=
  if p.flags &&& FlagTruncateFields ≠ 0 ∧ p.maxFieldLength > 0 ∧
      (field.length : Int) > p.maxFieldLength then
    field.take p.maxFieldLength.toNat
  else field

/-- The bytes `writeTo` hands to its sink: the color-formatted buffer, with a
single newline byte appended when the no-newline flag is clear and the
formatted buffer does not already end in a newline byte
(`bytes.HasSuffix(b, []byte("\n"))`). -/
def writeToPayload (p : Printer) (b : List Char) : List Char :=
  let fb := formatColor p b
  if p.flags &&& FlagWithoutNewLine = 0 then
    if hasSuffixL fb ['\n'] then fb else fb ++ ['\n']
  else fb

/-- Result of a raw write: the count/error pair returned by the sink, or the
runtime panic Go raises when the sink handle is `nil`. -/
inductive WriteResult where
  | ok (n : Nat)
  | err (e : String)
  | nilPanic
deriving DecidableEq

/-- Method `writeTo` from writer.go, applied to a sink handle. -/
def writeTo (p : Printer) (b : List Char) (w : Option GoSink) : WriteResult :=
  match w with
  | none => .nilPanic
  | some s =>
      match s.write (writeToPayload p b) with
      | .ok n => .ok n
      | .error e => .err e

/-- Observable outcome of a method that either returns normally or panics. -/
inductive GoOutcome where
  | normal
  | panicked (e : String)
  | nilPanicked
deriving DecidableEq

/-- Method `WriteToStd` from writer.go: writes to the standard sink and
panics on a write error (unconditionally — no flag is consulted). -/
def WriteToStd (p : Printer) (b : List Char) : GoOutcome :=
  match writeTo p b p.out with
  | .ok _ => .normal
  | .err e => .panicked e
  | .nilPanic => .nilPanicked

/-- Method `WriteToErr` from writer.go: writes to the error sink and panics
on a write error. -/
def WriteToErr (p : Printer) (b : List Char) : GoOutcome :=
  match writeTo p b p.err with
  | .ok _ => .normal
  | .err e => .panicked e
  | .nilPanic => .nilPanicked

/-- Method `Write` from writer.go: the raw write path, returning the
count/error pair from `writeTo` to the caller unchanged. -/
def Write (p : Printer) (buffer : List Char) : WriteResult :=
  writeTo p buffer p.out

/-! ### Prefix formatting (formatPrefix in src/writer.go) -/

/-- Hexadecimal digit character, for the `\xHH` escapes of `%q`. -/
def hexDigit (n : Nat) : Char :=
  if n < 10 then digitChar n else Char.ofNat (87 + n)

/-- Escaping of one ASCII character under Go `%q` (strconv.Quote): the named
single-character escapes, printable characters verbatim, `\xHH` otherwise. -/
def quoteChar (c : Char) : List Char :=
  if c = '"' then ['\\', '"']
  else if c = '\\' then ['\\', '\\']
  else if c = Char.ofNat 7 then ['\\', 'a']
  else if c = Char.ofNat 8 then ['\\', 'b']
  else if c = Char.ofNat 12 then ['\\', 'f']
  else if c = '\n' then ['\\', 'n']
  else if c = '\r' then ['\\', 'r']
  else if c = '\t' then ['\\', 't']
  else if c = Char.ofNat 11 then ['\\', 'v']
  else if 32 ≤ c.toNat ∧ c.toNat ≤ 126 then [c]
  else ['\\', 'x', hexDigit (c.toNat / 16 % 16), hexDigit (c.toNat % 16)]

/-- Model of Go `%q` on an ASCII string: surrounding double quotes with
per-character escaping. -/
def goQuote (s : List Char) : List Char :=
  '"' :: (s.map quoteChar).flatten ++ ['"']

/-- Model of Go generic `%v` stringification for the embedded value kinds. -/
def goV : GoValue → List Char
  | .str s => s
  | .int n => intToDec n
  | .bool b => if b then "true".data else "false".data

/-- One rendered field of formatPrefix: `fmt.Sprintf("%s=\"%v\"", k, v)` in
general, overridden by `fmt.Sprintf("%s=%q", k, str)` when the value is a
string, then passed through `truncateField`. -/
def renderField (p : Printer) (k : List Char) (v : GoValue) : List Char :=
  let fieldStr :=
    match v with
    | .str s => k ++ '=' :: goQuote s
    | _ => k ++ '=' :: '"' :: (goV v ++ ['"'])
  truncateField p fieldStr

/-- Byte-wise lexicographic order on ASCII strings, as used by
`sort.Strings`. -/
def charListLe : List Char → List Char → Bool
  | [], _ => true
  | _ :: _, [] => false
  | a :: as, b :: bs =>
      if a.toNat < b.toNat then true
      else if b.toNat < a.toNat then false
      else charListLe as bs

/-- Insertion step of the sorting model. -/
def insertSorted (x : List Char) : List (List Char) → List (List Char)
  | [] => [x]
  | y :: t => if charListLe x y then x :: y :: t else y :: insertSorted x t

/-- Model of `sort.Strings`: the sorted permutation of the rendered field
strings (insertion sort; ascending byte-wise order). -/
def sortStrings : List (List Char) → List (List Char)
  | [] => []
  | x :: t => insertSorted x (sortStrings t)

/-- Model of `strings.Join` with a separator. -/
def joinSep (sep : List Char) : List (List Char) → List Char
  | [] => []
  | x :: rest =>
      match rest with
      | [] => x
      | _ :: _ => x ++ sep ++ joinSep sep rest

/-- Zero padding on the left to a minimum width (Go `%03d` and the fixed-width
clock fields). -/
def padZeros (w : Nat) (s : List Char) : List Char :=
  List.replicate (w - s.length) '0' ++ s

/-- Wall-clock reading used by `time.Now().Format("15:04:05.000")`, passed in
explicitly since the model is pure. -/
structure GoTime where
  hh : Nat
  mm : Nat
  ss : Nat
  ms : Nat

/-- Rendering of the layout `15:04:05.000`. -/
def fmtClock (t : GoTime) : List Char :=
  padZeros 2 (natToDec t.hh) ++ ':' :: padZeros 2 (natToDec t.mm) ++
    ':' :: padZeros 2 (natToDec t.ss) ++ '.' :: padZeros 3 (natToDec t.ms)

/-- Method `formatPrefix` from writer.go.  The goroutine id and clock reading
are explicit parameters (the Go code obtains them from the runtime).  The
content pieces are assembled in source order: goroutine id, timestamp, level
name, sorted rendered fields; then the bracketed joined content, wrapped in
level-colored markup when the color flag is set. -/
def formatPrefix (p : Printer) (level : Int) (gid : Nat) (now : GoTime) : List Char :=
  let content : List (List Char) :=
    (if p.flags &&& FlagWithGoroutineID ≠ 0 then [padZeros 3 (natToDec gid)] else []) ++
    (if p.flags &&& FlagWithDate ≠ 0 then [fmtClock now] else []) ++
    [levelString level] ++
    (if p.fields.length > 0 then
      [joinSep ", ".data
        (sortStrings (p.fields.map (fun kv => renderField p kv.1 kv.2)))]
     else [])
  if p.flags &&& FlagWithColor ≠ 0 then
    [lbrace, lbrace, lbrace] ++ levelGetColor level ++ [rbrace, rbrace, rbrace] ++
      '[' :: (joinSep " | ".data content ++
        ']' :: [lbrace, lbrace, lbrace] ++ '-' :: "RESET".data ++
          [rbrace, rbrace, rbrace] ++ [' '])
  else
    '[' :: (joinSep " | ".data content ++ "] ".data)

/-! ### Level-gated emitters (src/writer.go) -/

/-- Identifier of one of the two sinks. -/
inductive SinkId where
  | std
  | errSink
deriving DecidableEq

/-- Method `Errorf`: gated on `logLevel >= LevelError`; the emitted sink bytes
are the `writeTo` payload of the prefix followed by the formatted message body
(the `fmt.Sprintf(format, a...)` result is the `body` parameter; `Errorf`
applies no truncation), routed to the error sink via `WriteToErr`. -/
def Errorf (p : Printer) (body : List Char) (gid : Nat) (now : GoTime) :
    Option (SinkId × List Char) :=
  if p.logLevel ≥ LevelError then
    some (.errSink, writeToPayload p (formatPrefix p LevelError gid now ++ body))
  else none

/-- Method `Warnf`: gated on `logLevel >= LevelWarn`; the body is truncated by
`truncateLog`, prefixed, and routed to the standard sink via `WriteToStd`. -/
def Warnf (p : Printer) (body : List Char) (gid : Nat) (now : GoTime) :
    Option (SinkId × List Char) :=
  if p.logLevel ≥ LevelWarn then
    some (.std, writeToPayload p (formatPrefix p LevelWarn gid now ++ truncateLog p body))
  else none

/-- Method `Infof`: gated on `logLevel >= LevelInfo`; truncated body, standard
sink. -/
def Infof (p : Printer) (body : List Char) (gid : Nat) (now : GoTime) :
    Option (SinkId × List Char) :=
  if p.logLevel ≥ LevelInfo then
    some (.std, writeToPayload p (formatPrefix p LevelInfo gid now ++ truncateLog p body))
  else none

/-- Method `Debugf`: gated on `logLevel >= LevelDebug`; truncated body,
standard sink. -/
def Debugf (p : Printer) (body : List Char) (gid : Nat) (now : GoTime) :
    Option (SinkId × List Char) :=
  if p.logLevel ≥ LevelDebug then
    some (.std, writeToPayload p (formatPrefix p LevelDebug gid now ++ truncateLog p body))
  else none

/-! ### Close (src/writer.go) -/

/-- Second half of `Close`: the `p.err` block, carrying the list of close
operations performed so far. -/
def closeErrStep (p : Printer) (ops : List SinkId) :
    Printer × Option String × List SinkId :=
  match p.err with
  | some o =>
      match o.closeRes with
      | some e => (p, some e, ops ++ [SinkId.errSink])
      | none => ({ p with err := none }, none, ops ++ [SinkId.errSink])
  | none => (p, none, ops)

/-- Method `Close` from writer.go: closes `out` if non-nil (returning early on
failure, setting the handle to nil only on success), then does the same for
`err`.  The result carries the updated printer, the returned error (`none` for
Go `nil`) and the list of sink close operations actually performed. -/
def Close (p : Printer) : Printer × Option String × List SinkId :=
  match p.out with
  | some o =>
      match o.closeRes with
      | some e => (p, some e, [SinkId.std])
      | none => closeErrStep { p with out := none } [SinkId.std]
  | none => closeErrStep p []

/-! ### Heap model of the field maps (Copy / WithField / WithFields)

The pure `Printer` record above cannot express aliasing between the field
maps of two instances, so the derivation operations are also embedded
against an explicit store: every Go map value lives in a heap cell, and a
printer holds the index of its cell.  `Copy` performs `make(LogFields)`
followed by `maps.Copy` — allocation of a fresh cell holding the same
bindings — and the `WithField`/`WithFields` updates then write only to the
fresh cell, exactly as the source does. -/

/-- Contents of one Go `LogFields` map value. -/
abbrev FieldMap := List (List Char × GoValue)

/-- Go map assignment `m[k] = v`: replace the binding if the key is present,
otherwise add it. -/
def mapSet (m : FieldMap) (k : List Char) (v : GoValue) : FieldMap :=
  match m with
  | [] => [(k, v)]
  | (k0, v0) :: t => if k0 = k then (k0, v) :: t else (k0, v0) :: mapSet t k v

/-- Go map read `m[k]`. -/
def mapGet (m : FieldMap) (k : List Char) : Option GoValue :=
  match m with
  | [] => none
  | (k0, v0) :: t => if k0 = k then some v0 else mapGet t k

/-- The store of allocated field maps. -/
structure FieldHeap where
  cells : List FieldMap

/-- A printer as seen by the field-store operations: the index of its field
map in the heap. -/
structure PrinterRef where
  fieldsId : Nat

/-- Read a heap cell. -/
def heapGet (h : FieldHeap) (i : Nat) : FieldMap :=
  h.cells.getD i []

/-- Overwrite a heap cell. -/
def heapSet (h : FieldHeap) (i : Nat) (m : FieldMap) : FieldHeap :=
  ⟨h.cells.set i m⟩

/-- Method `Copy` from writer.go, restricted to the field store: allocate a
fresh map (`make(LogFields)`) and copy all bindings of the receiver into it
(`maps.Copy`); the new instance refers to the fresh cell. -/
def Copy (h : FieldHeap) (r : PrinterRef) : FieldHeap × PrinterRef :=
  (⟨h.cells ++ [heapGet h r.fieldsId]⟩, ⟨h.cells.length⟩)

/-- Method `WithField` from writer.go: `Copy` followed by a single map
assignment on the new instance's map. -/
def WithField (h : FieldHeap) (r : PrinterRef) (k : List Char) (v : GoValue) :
    FieldHeap × PrinterRef :=
  let c := Copy h r
  (heapSet c.1 c.2.fieldsId (mapSet (heapGet c.1 c.2.fieldsId) k v), c.2)

/-- Method `WithFields` from writer.go: `Copy` followed by one map assignment
per entry of the supplied map (entries given as a duplicate-free list, the
order being irrelevant for a Go map). -/
def WithFields (h : FieldHeap) (r : PrinterRef) (fs : List (List Char × GoValue)) :
    FieldHeap × PrinterRef :=
  let c := Copy h r
  (heapSet c.1 c.2.fieldsId
    (fs.foldl (fun m kv => mapSet m kv.1 kv.2) (heapGet c.1 c.2.fieldsId)), c.2)

/-! ### Concrete fixtures used by witnesses and counterexamples -/

/-- Markup token builder for concrete test inputs: the body wrapped in three
opening and three closing braces. -/
def tokL (s : String) : List Char :=
  [lbrace, lbrace, lbrace] ++ s.data ++ [rbrace, rbrace, rbrace]

/-- A sink accepting every write and closing cleanly. -/
def okSink : GoSink := { write := fun b => .ok b.length, closeRes := none }

/-- A sink whose writes fail with the fixed error `boom` and whose close
succeeds. -/
def failSink : GoSink := { write := fun _ => .error "boom", closeRes := none }

/-- A barebones printer with the given flags, debug threshold, no fields and
no sinks. -/
def plainPrinter (fl : Nat) : Printer :=
  { out := none, err := none, logLevel := LevelDebug, flags := fl, fields := [],
    maxLogLength := 0, maxFieldLength := 0 }

/-- A printer built by `NewPrinter` over two failing sinks, with no explicit
flags (so only the constructor-forced `FlagPanicOnError` is set). -/
def pFail : Printer := NewPrinter LevelDebug 0 (some failSink) (some failSink)

/-- A printer with log truncation enabled and a limit of 10 bytes. -/
def pTrunc : Printer :=
  { out := none, err := none, logLevel := LevelDebug, flags := FlagTruncateLogs,
    fields := [], maxLogLength := 10, maxFieldLength := 0 }

/-- A twenty-character message body. -/
def twentyBody : List Char := "abcdefghijklmnopqrst".data

/-- A printer whose two sinks both close successfully. -/
def pOkOk : Printer :=
  { out := some okSink, err := some okSink, logLevel := LevelDebug, flags := 0,
    fields := [], maxLogLength := 0, maxFieldLength := 0 }

/-- A printer carrying the two example fields, attached in one order. -/
def pUserAction : Printer :=
  { plainPrinter 0 with
      fields := [("user".data, .str "alice".data), ("action".data, .str "login".data)] }

/-- The same two example fields, attached in the other order. -/
def pActionUser : Printer :=
  { plainPrinter 0 with
      fields := [("action".data, .str "login".data), ("user".data, .str "alice".data)] }

/-- A printer whose configured threshold is the error level. -/
def pErrLevel : Printer := { plainPrinter 0 with logLevel := LevelError }

/-- Substring search (model of `bytes.Contains`), used to state the
escape-sequence claims. -/
def containsL (s pat : List Char) : Bool :=
  match s with
  | [] => leadMatch pat []
  | _ :: t => leadMatch pat s || containsL t pat

/-! ## Theorems -/

/-- C8: the claim fails on the code, which is a slip against the code's own
option table.  `formatColor` lowercases each bare component before consulting
`colorOptions`, but the table key is spelled `slowBlink`, so no casing of the
name — not even the exact spelling used by the table — ever resolves; every
casing produces the not-found diagnostic placeholder instead of SGR code 5.
The other four option names do resolve case-insensitively, as evaluated here
on mixed-case inputs. -/
theorem slowBlink_lookup_unreachable :
    lookupAssoc colorOptions (toLowerL "slowBlink".data) = none ∧
    formatColor (plainPrinter FlagWithColor) (tokL "slowBlink") =
      "\x1b[%NOT_FOUND%slowBlinkm\x1b[0m".data ∧
    formatColor (plainPrinter FlagWithColor) (tokL "SLOWBLINK") =
      "\x1b[%NOT_FOUND%SLOWBLINKm\x1b[0m".data ∧
    formatColor (plainPrinter FlagWithColor) (tokL "slowblink") =
      "\x1b[%NOT_FOUND%slowblinkm\x1b[0m".data ∧
    formatColor (plainPrinter FlagWithColor) (tokL "ReSeT") =
      "\x1b[0m\x1b[0m".data ∧
    formatColor (plainPrinter FlagWithColor) (tokL "BOLD") =
      "\x1b[1m\x1b[0m".data ∧
    formatColor (plainPrinter FlagWithColor) (tokL "Faint") =
      "\x1b[2m\x1b[0m".data ∧
    formatColor (plainPrinter FlagWithColor) (tokL "UNDERLINED") =
      "\x1b[4m\x1b[0m".data := by
  decide

/-- C9 counterexample: on the empty-body token the code does not produce the
bare empty-coded escape the claim describes; the empty component takes the
not-found path, so the token is replaced by a diagnostic placeholder
sequence. -/
theorem empty_token_counterexample :
    formatColor (plainPrinter FlagWithColor) (tokL "") =
      "\x1b[%NOT_FOUND%m\x1b[0m".data ∧
    formatColor (plainPrinter FlagWithColor) (tokL "") ≠
      "\x1b[m\x1b[0m".data ∧
    containsL (formatColor (plainPrinter FlagWithColor) (tokL ""))
      "%NOT_FOUND%".data = true := by
  decide

/-- C9 amended: a token with empty body is replaced by the escape-wrapped
not-found placeholder `ESC[%NOT_FOUND%m` — the empty component misses the
option table, emitting `%NOT_FOUND%%`, whose trailing percent is then
consumed by the separator-trim step — followed by the usual trailing reset
appended to the whole buffer. -/
theorem empty_token_notfound_escape :
    tokenRepl [] = "\x1b[%NOT_FOUND%m".data ∧
    formatColor (plainPrinter FlagWithColor) (tokL "") =
      "\x1b[%NOT_FOUND%m\x1b[0m".data ∧
    formatColor (plainPrinter FlagWithColor) ("a".data ++ tokL "" ++ "b".data) =
      "a\x1b[%NOT_FOUND%mb\x1b[0m".data := by
  decide

/-- C2 counterexample: `FlagPanicOnError` is never consulted.  `pFail` has the
flag set (forced by `NewPrinter`), yet a failing sink write through the raw
write path `Write` is returned to the caller as an error value, not escalated
as a panic; and with the flag artificially cleared, `WriteToStd` still panics
on the same failing write. -/
theorem panic_flag_counterexample :
    pFail.flags &&& FlagPanicOnError ≠ 0 ∧
    Write pFail "x".data = .err "boom" ∧
    WriteToStd { pFail with flags := 0 } "x".data = .panicked "boom" := by
  decide

/-- C5 counterexample: with truncation enabled and a limit of 10, a
twenty-character body logged through `Errorf` is emitted in full — `Errorf`
never calls `truncateLog` — while the same body through `Warnf` is cut to
exactly 10 bytes.  The claim that all four level-gated emitters truncate is
therefore false for the error emitter. -/
theorem errorf_not_truncated_counterexample :
    pTrunc.flags &&& FlagTruncateLogs ≠ 0 ∧
    pTrunc.maxLogLength = 10 ∧
    twentyBody.length = 20 ∧
    Errorf pTrunc twentyBody 0 ⟨0, 0, 0, 0⟩ =
      some (.errSink, "[ERROR] abcdefghijklmnopqrst\n".data) ∧
    Warnf pTrunc twentyBody 0 ⟨0, 0, 0, 0⟩ =
      some (.std, "[WARN] abcdefghij\n".data) := by
  decide

/-- C6 counterexample: a non-string field value is not rendered unquoted.
The generic branch of the field renderer is `%s="%v"`, so the integer field
`n = 42` renders as `n="42"` (with surrounding double quotes), not as the
claimed `n=42`. -/
theorem nonstring_field_quoted_counterexample :
    renderField (plainPrinter 0) "n".data (.int 42) = "n=\"42\"".data ∧
    renderField (plainPrinter 0) "n".data (.int 42) ≠ "n=42".data ∧
    formatPrefix { plainPrinter 0 with fields := [("n".data, .int 42)] }
      LevelInfo 0 ⟨0, 0, 0, 0⟩ = "[INFO | n=\"42\"] ".data := by
  decide

/-- Appending a byte makes the single-byte suffix check for that byte
succeed. -/
theorem hasSuffixL_append_single (xs : List Char) (c : Char) :
    hasSuffixL (xs ++ [c]) [c] = true := by
  simp [hasSuffixL, leadMatch]

/-- C1: with the no-newline flag clear, the bytes `writeTo` passes to the sink
always end in a newline byte; the check is a literal single-byte suffix match
performed on the color-formatted buffer: when that buffer already ends in a
newline nothing is appended, otherwise exactly one newline byte is
appended. -/
theorem writeTo_trailing_newline (p : Printer) (b : List Char)
    (h : p.flags &&& FlagWithoutNewLine = 0) :
    hasSuffixL (writeToPayload p b) ['\n'] = true ∧
    (hasSuffixL (formatColor p b) ['\n'] = true →
      writeToPayload p b = formatColor p b) ∧
    (hasSuffixL (formatColor p b) ['\n'] = false →
      writeToPayload p b = formatColor p b ++ ['\n']) := by
  simp only [writeToPayload]
  rw [if_pos h]
  cases hs : hasSuffixL (formatColor p b) ['\n'] with
  | true => simp [hs]
  | false => simp [hs, hasSuffixL_append_single]

/-- Witness for C1 at a concrete printer and message. -/
theorem writeTo_trailing_newline_witness :
    (plainPrinter 0).flags &&& FlagWithoutNewLine = 0 ∧
    (hasSuffixL (writeToPayload (plainPrinter 0) "hi".data) ['\n'] = true ∧
     (hasSuffixL (formatColor (plainPrinter 0) "hi".data) ['\n'] = true →
       writeToPayload (plainPrinter 0) "hi".data =
         formatColor (plainPrinter 0) "hi".data) ∧
     (hasSuffixL (formatColor (plainPrinter 0) "hi".data) ['\n'] = false →
       writeToPayload (plainPrinter 0) "hi".data =
         formatColor (plainPrinter 0) "hi".data ++ ['\n'])) :=
  ⟨by decide, writeTo_trailing_newline (plainPrinter 0) "hi".data (by decide)⟩

/-- C3: each emitter fires exactly when the configured threshold is at least
its level in the ordering Error(0) < Warn(1) < Info(2) < Debug(3); the error
emitter routes to the error sink and the other three to the standard sink;
with threshold `LevelError` the warn/info/debug emitters emit nothing, and
with threshold `LevelDebug` all four emit. -/
theorem level_gating_and_routing (p : Printer) (body : List Char) (gid : Nat)
    (now : GoTime) :
    ((Errorf p body gid now).map Prod.fst =
      if p.logLevel ≥ LevelError then some SinkId.errSink else none) ∧
    ((Warnf p body gid now).map Prod.fst =
      if p.logLevel ≥ LevelWarn then some SinkId.std else none) ∧
    ((Infof p body gid now).map Prod.fst =
      if p.logLevel ≥ LevelInfo then some SinkId.std else none) ∧
    ((Debugf p body gid now).map Prod.fst =
      if p.logLevel ≥ LevelDebug then some SinkId.std else none) ∧
    (p.logLevel = LevelError →
      Warnf p body gid now = none ∧
      Infof p body gid now = none ∧
      Debugf p body gid now = none) ∧
    (p.logLevel = LevelDebug →
      (Errorf p body gid now).isSome = true ∧
      (Warnf p body gid now).isSome = true ∧
      (Infof p body gid now).isSome = true ∧
      (Debugf p body gid now).isSome = true) := by
  unfold Errorf Warnf Infof Debugf
  refine ⟨?_, ?_, ?_, ?_, fun hE => ⟨?_, ?_, ?_⟩, fun hD => ⟨?_, ?_, ?_, ?_⟩⟩
  · split <;> simp [*]
  · split <;> simp [*]
  · split <;> simp [*]
  · split <;> simp [*]
  · rw [hE, if_neg (by decide)]
  · rw [hE, if_neg (by decide)]
  · rw [hE, if_neg (by decide)]
  · rw [hD, if_pos (by decide)]
    rfl
  · rw [hD, if_pos (by decide)]
    rfl
  · rw [hD, if_pos (by decide)]
    rfl
  · rw [hD, if_pos (by rfl)]
    rfl

/-- Witness for C3, discharging the two threshold equations at concrete
printers: with an error-level threshold the warn emitter emits nothing, and
with a debug-level threshold the debug emitter emits. -/
theorem level_gating_witness :
    Warnf pErrLevel "m".data 0 ⟨0, 0, 0, 0⟩ = none ∧
    (Debugf (plainPrinter 0) "m".data 0 ⟨0, 0, 0, 0⟩).isSome = true :=
  ⟨((level_gating_and_routing pErrLevel "m".data 0 ⟨0, 0, 0, 0⟩).2.2.2.2.1 rfl).1,
   ((level_gating_and_routing (plainPrinter 0) "m".data 0
      ⟨0, 0, 0, 0⟩).2.2.2.2.2 rfl).2.2.2⟩

/-- C5 amended: when log truncation is enabled with a positive limit and the
body exceeds it, the warn/info/debug emitters emit the body cut to exactly
the limit (no ellipsis added), while the error emitter emits the body
untruncated. -/
theorem truncation_policy (p : Printer) (body : List Char) (gid : Nat)
    (now : GoTime)
    (hflag : p.flags &&& FlagTruncateLogs ≠ 0) (hmax : p.maxLogLength > 0)
    (hlen : (body.length : Int) > p.maxLogLength)
    (hlev : p.logLevel = LevelDebug) :
    truncateLog p body = body.take p.maxLogLength.toNat ∧
    (truncateLog p body).length = p.maxLogLength.toNat ∧
    Warnf p body gid now = some (.std, writeToPayload p
      (formatPrefix p LevelWarn gid now ++ body.take p.maxLogLength.toNat)) ∧
    Infof p body gid now = some (.std, writeToPayload p
      (formatPrefix p LevelInfo gid now ++ body.take p.maxLogLength.toNat)) ∧
    Debugf p body gid now = some (.std, writeToPayload p
      (formatPrefix p LevelDebug gid now ++ body.take p.maxLogLength.toNat)) ∧
    Errorf p body gid now = some (.errSink, writeToPayload p
      (formatPrefix p LevelError gid now ++ body)) := by
  have ht : truncateLog p body = body.take p.maxLogLength.toNat := by
    unfold truncateLog
    rw [if_pos ⟨hflag, hmax, hlen⟩]
  refine ⟨ht, ?_, ?_, ?_, ?_, ?_⟩
  · rw [ht, List.length_take]
    omega
  · unfold Warnf
    rw [ht, if_pos (by rw [hlev]; decide)]
  · unfold Infof
    rw [ht, if_pos (by rw [hlev]; decide)]
  · unfold Debugf
    rw [ht, if_pos (by rw [hlev])]
  · unfold Errorf
    rw [if_pos (by rw [hlev]; decide)]

/-- Witness for the amended C5 at the concrete ten-byte limit and
twenty-byte body. -/
theorem truncation_policy_witness :
    pTrunc.flags &&& FlagTruncateLogs ≠ 0 ∧
    (truncateLog pTrunc twentyBody = twentyBody.take pTrunc.maxLogLength.toNat ∧
     (truncateLog pTrunc twentyBody).length = pTrunc.maxLogLength.toNat ∧
     Warnf pTrunc twentyBody 0 ⟨0, 0, 0, 0⟩ = some (.std, writeToPayload pTrunc
       (formatPrefix pTrunc LevelWarn 0 ⟨0, 0, 0, 0⟩ ++
         twentyBody.take pTrunc.maxLogLength.toNat)) ∧
     Infof pTrunc twentyBody 0 ⟨0, 0, 0, 0⟩ = some (.std, writeToPayload pTrunc
       (formatPrefix pTrunc LevelInfo 0 ⟨0, 0, 0, 0⟩ ++
         twentyBody.take pTrunc.maxLogLength.toNat)) ∧
     Debugf pTrunc twentyBody 0 ⟨0, 0, 0, 0⟩ = some (.std, writeToPayload pTrunc
       (formatPrefix pTrunc LevelDebug 0 ⟨0, 0, 0, 0⟩ ++
         twentyBody.take pTrunc.maxLogLength.toNat)) ∧
     Errorf pTrunc twentyBody 0 ⟨0, 0, 0, 0⟩ = some (.errSink, writeToPayload pTrunc
       (formatPrefix pTrunc LevelError 0 ⟨0, 0, 0, 0⟩ ++ twentyBody))) :=
  ⟨by decide, truncation_policy pTrunc twentyBody 0 ⟨0, 0, 0, 0⟩
    (by decide) (by decide) (by decide) rfl⟩

/-- C2 amended: the escalation policy is keyed on the entry point, not on
`FlagPanicOnError` (which `NewPrinter` always sets but no code path reads):
for every printer, whatever its flags, a failing sink write through
`WriteToStd` or `WriteToErr` is escalated as a panic, while the raw write
path `Write` returns the failure as an error value to the caller. -/
theorem write_error_policy (p : Printer) (b : List Char) (s : GoSink)
    (e : String)
    (hout : p.out = some s)
    (hfail : s.write (writeToPayload p b) = .error e) :
    WriteToStd p b = .panicked e ∧
    Write p b = .err e ∧
    (∀ s2 e2, p.err = some s2 → s2.write (writeToPayload p b) = .error e2 →
      WriteToErr p b = .panicked e2) := by
  refine ⟨?_, ?_, ?_⟩
  · simp [WriteToStd, writeTo, hout, hfail]
  · simp [Write, writeTo, hout, hfail]
  · intro s2 e2 h2 hf2
    simp [WriteToErr, writeTo, h2, hf2]

/-- Witness for the amended C2: the failing-sink printer (whose flags do
include `FlagPanicOnError`) panics through `WriteToStd` and gets the error
returned through `Write`. -/
theorem write_error_policy_witness :
    WriteToStd pFail "x".data = .panicked "boom" ∧
    Write pFail "x".data = .err "boom" := by
  have h := write_error_policy pFail "x".data failSink "boom" rfl rfl
  exact ⟨h.1, h.2.1⟩

/-- C7: `Close` closes each owned sink at most once, nils the handle right
after a successful close, returns the first failure without masking it, and
leaves successfully closed sinks marked closed even when a later close
fails; in particular when both closes succeed, a second `Close` performs no
sink operations and returns nil, so calling it twice returns no error both
times. -/
theorem close_idempotent (p : Printer) (o e : GoSink)
    (hout : p.out = some o) (herr : p.err = some e) :
    (o.closeRes = none → e.closeRes = none →
      Close p = ({ p with out := none, err := none }, none,
        [SinkId.std, SinkId.errSink]) ∧
      Close { p with out := none, err := none } =
        ({ p with out := none, err := none }, none, [])) ∧
    (∀ msg, o.closeRes = some msg → Close p = (p, some msg, [SinkId.std])) ∧
    (∀ msg, o.closeRes = none → e.closeRes = some msg →
      Close p = ({ p with out := none }, some msg,
        [SinkId.std, SinkId.errSink])) := by
  refine ⟨fun h1 h2 => ⟨?_, ?_⟩, fun msg h1 => ?_, fun msg h1 h2 => ?_⟩
  · simp [Close, closeErrStep, hout, herr, h1, h2]
  · simp [Close, closeErrStep]
  · simp [Close, hout, h1]
  · simp [Close, closeErrStep, hout, herr, h1, h2]

/-- Witness for C7: both sinks of `pOkOk` close successfully; the first
`Close` nils both handles and the second performs no sink operations and
returns nil. -/
theorem close_idempotent_witness :
    Close pOkOk = ({ pOkOk with out := none, err := none }, none,
      [SinkId.std, SinkId.errSink]) ∧
    Close { pOkOk with out := none, err := none } =
      ({ pOkOk with out := none, err := none }, none, []) :=
  (close_idempotent pOkOk okSink okSink rfl rfl).1 rfl rfl

/-- C6 amended: structured fields are rendered as `key=%q` for string values
(quoted and escaped) and as the value's generic stringification wrapped in
literal double quotes (quoted, not escaped) for non-string values; multiple
fields are joined by `, ` after sorting the rendered strings in ascending
lexicographic order, so the two example fields render as
`action="login", user="alice"` regardless of attachment order. -/
theorem field_rendering_format (p : Printer) (k s : List Char) (n : Int)
    (b : Bool) (htf : p.flags &&& FlagTruncateFields = 0) :
    renderField p k (.str s) = k ++ '=' :: goQuote s ∧
    renderField p k (.int n) = k ++ '=' :: '"' :: (intToDec n ++ ['"']) ∧
    renderField p k (.bool b) = k ++ '=' :: '"' :: (goV (.bool b) ++ ['"']) ∧
    formatPrefix pUserAction LevelInfo 0 ⟨0, 0, 0, 0⟩ =
      "[INFO | action=\"login\", user=\"alice\"] ".data ∧
    formatPrefix pActionUser LevelInfo 0 ⟨0, 0, 0, 0⟩ =
      "[INFO | action=\"login\", user=\"alice\"] ".data := by
  have htr : ∀ x : List Char, truncateField p x = x := by
    intro x
    unfold truncateField
    rw [if_neg]
    rintro ⟨hf, -⟩
    exact hf htf
  refine ⟨?_, ?_, ?_, by decide, by decide⟩
  · simp [renderField, htr]
  · simp [renderField, htr, goV]
  · simp [renderField, htr]

/-- Witness for the amended C6 at a concrete printer, key and values. -/
theorem field_rendering_format_witness :
    (plainPrinter 0).flags &&& FlagTruncateFields = 0 ∧
    renderField (plainPrinter 0) "k".data (.str "v".data) =
      "k".data ++ '=' :: goQuote "v".data ∧
    renderField (plainPrinter 0) "k".data (.int 7) =
      "k".data ++ '=' :: '"' :: (intToDec 7 ++ ['"']) := by
  have h := field_rendering_format (plainPrinter 0) "k".data "v".data 7 true
    (by decide)
  exact ⟨by decide, h.1, h.2.1⟩

/-! ### Lemmas for the field-store heap model -/

/-- Reading back the key just set returns the value just set. -/
theorem mapGet_mapSet_self (m : FieldMap) (k : List Char) (v : GoValue) :
    mapGet (mapSet m k v) k = some v := by
  induction m with
  | nil => simp [mapSet, mapGet]
  | cons kv t ih =>
      obtain ⟨k0, v0⟩ := kv
      by_cases h : k0 = k
      · simp [mapSet, mapGet, h]
      · simp [mapSet, mapGet, h, ih]

/-- Setting one key leaves every other key unchanged. -/
theorem mapGet_mapSet_ne (m : FieldMap) (k k' : List Char) (v : GoValue)
    (h : k' ≠ k) :
    mapGet (mapSet m k v) k' = mapGet m k' := by
  induction m with
  | nil =>
      simp only [mapSet, mapGet]
      rw [if_neg (fun he => h he.symm)]
  | cons kv t ih =>
      obtain ⟨k0, v0⟩ := kv
      simp only [mapSet]
      by_cases h0 : k0 = k
      · have hne : ¬k0 = k' := fun he => h (he.symm.trans h0)
        rw [if_pos h0]
        simp only [mapGet]
        rw [if_neg hne, if_neg hne]
      · rw [if_neg h0]
        simp only [mapGet]
        rw [ih]

/-- Folding map assignments over entries whose keys avoid `k` does not change
the binding of `k`. -/
theorem mapGet_foldl_notmem (fs : List (List Char × GoValue)) (m : FieldMap)
    (k : List Char) (h : k ∉ fs.map Prod.fst) :
    mapGet (fs.foldl (fun m kv => mapSet m kv.1 kv.2) m) k = mapGet m k := by
  induction fs generalizing m with
  | nil => rfl
  | cons kv rest ih =>
      obtain ⟨k0, v0⟩ := kv
      simp only [List.map_cons, List.mem_cons] at h
      push_neg at h
      rw [List.foldl_cons, ih _ h.2, mapGet_mapSet_ne _ _ _ _ h.1]

/-- Folding map assignments over duplicate-free entries binds each entry's
key to its value. -/
theorem mapGet_foldl_mem (fs : List (List Char × GoValue)) (m : FieldMap)
    (k : List Char) (v : GoValue) (hnd : (fs.map Prod.fst).Nodup)
    (hmem : (k, v) ∈ fs) :
    mapGet (fs.foldl (fun m kv => mapSet m kv.1 kv.2) m) k = some v := by
  induction fs generalizing m with
  | nil => cases hmem
  | cons kv rest ih =>
      obtain ⟨k0, v0⟩ := kv
      simp only [List.map_cons, List.nodup_cons] at hnd
      rw [List.foldl_cons]
      rcases List.mem_cons.mp hmem with heq | hrest
      · injection heq with hk hv
        subst hk
        subst hv
        have hnot : k ∉ rest.map Prod.fst := hnd.1
        rw [mapGet_foldl_notmem _ _ _ hnot, mapGet_mapSet_self]
      · exact ih _ hnd.2 hrest

/-- Setting the slot just past a list extended by one element rewrites that
element. -/
theorem set_append_len {α : Type} (l : List α) (x m : α) :
    (l ++ [x]).set l.length m = l ++ [m] := by
  induction l with
  | nil => rfl
  | cons a t ih => simp [List.set, ih]

/-- C4: deriving via `WithField` or `WithFields` never mutates the source
instance's field map — the source's heap cell is bitwise unchanged — while
the derived instance refers to a distinct, freshly allocated cell in which
the new binding(s) are present. -/
theorem withField_no_mutation (h : FieldHeap) (r : PrinterRef) (k : List Char)
    (v : GoValue) (fs : List (List Char × GoValue))
    (hr : r.fieldsId < h.cells.length) (hnd : (fs.map Prod.fst).Nodup) :
    heapGet (WithField h r k v).1 r.fieldsId = heapGet h r.fieldsId ∧
    (WithField h r k v).2.fieldsId ≠ r.fieldsId ∧
    mapGet (heapGet (WithField h r k v).1 (WithField h r k v).2.fieldsId) k =
      some v ∧
    heapGet (WithFields h r fs).1 r.fieldsId = heapGet h r.fieldsId ∧
    (WithFields h r fs).2.fieldsId ≠ r.fieldsId ∧
    (∀ kv ∈ fs, mapGet (heapGet (WithFields h r fs).1
      (WithFields h r fs).2.fieldsId) kv.1 = some kv.2) := by
  have hset : ∀ m' : FieldMap,
      (h.cells ++ [h.cells.getD r.fieldsId []]).set h.cells.length m' =
        h.cells ++ [m'] := fun m' => set_append_len h.cells _ m'
  have hgetold : ∀ m' : FieldMap,
      (h.cells ++ [m']).getD r.fieldsId [] = h.cells.getD r.fieldsId [] :=
    fun m' => List.getD_append _ _ _ _ hr
  have hgetnew : ∀ m' : FieldMap,
      (h.cells ++ [m']).getD h.cells.length [] = m' := by
    intro m'
    rw [List.getD_append_right _ _ _ _ (le_refl _)]
    simp
  refine ⟨?_, ?_, ?_, ?_, ?_, ?_⟩ <;>
    simp only [WithField, WithFields, Copy, heapSet, heapGet]
  · rw [hgetnew, hset, hgetold]
  · omega
  · rw [hgetnew, hset, hgetnew]
    exact mapGet_mapSet_self _ _ _
  · rw [hgetnew, hset, hgetold]
  · omega
  · intro kv hkv
    rw [hgetnew, hset, hgetnew]
    exact mapGet_foldl_mem _ _ _ _ hnd hkv

/-- Witness for C4 on a concrete one-cell heap, key, value and two-entry
field map. -/
theorem withField_no_mutation_witness :
    (⟨0⟩ : PrinterRef).fieldsId <
      (⟨[[("a".data, GoValue.str "x".data)]]⟩ : FieldHeap).cells.length ∧
    heapGet (WithField ⟨[[("a".data, GoValue.str "x".data)]]⟩ ⟨0⟩ "k".data
        (GoValue.int 1)).1 0 =
      heapGet (⟨[[("a".data, GoValue.str "x".data)]]⟩ : FieldHeap) 0 ∧
    mapGet (heapGet (WithField ⟨[[("a".data, GoValue.str "x".data)]]⟩ ⟨0⟩
        "k".data (GoValue.int 1)).1
      (WithField ⟨[[("a".data, GoValue.str "x".data)]]⟩ ⟨0⟩ "k".data
        (GoValue.int 1)).2.fieldsId) "k".data = some (GoValue.int 1) := by
  have h := withField_no_mutation ⟨[[("a".data, GoValue.str "x".data)]]⟩ ⟨0⟩
    "k".data (GoValue.int 1) [("b".data, GoValue.bool true)]
    (by decide) (by decide)
  exact ⟨by decide, h.1, h.2.2.1⟩

/-! ### Lemmas about substring containment and escape-free output -/

/-- A leading-segment match survives removal of a trailing byte that differs
from the pattern's last byte. -/
theorem leadMatch_dropLastByte (pat : List Char) :
    ∀ (xs : List Char) (c : Char), leadMatch pat (xs ++ [c]) = true →
      pat.getLast? ≠ some c → leadMatch pat xs = true := by
  induction pat with
  | nil =>
      intro xs c _ _
      rfl
  | cons p ps ih =>
      intro xs c hm hl
      cases xs with
      | nil =>
          simp only [List.nil_append, leadMatch] at hm
          rw [Bool.and_eq_true] at hm
          obtain ⟨hp, hps⟩ := hm
          cases ps with
          | nil =>
              exact absurd (by rw [eq_of_beq hp]; simp :
                (p :: ([] : List Char)).getLast? = some c) hl
          | cons q qs => simp [leadMatch] at hps
      | cons x t =>
          simp only [List.cons_append, leadMatch] at hm
          rw [Bool.and_eq_true] at hm
          obtain ⟨hpx, hrest⟩ := hm
          cases ps with
          | nil => simp [leadMatch, hpx]
          | cons q qs =>
              have hl' : (q :: qs).getLast? ≠ some c := by
                intro hq
                exact hl (by rw [List.getLast?_cons_cons]; exact hq)
              have hres := ih t c hrest hl'
              simp [leadMatch, hpx, hres]

/-- Substring containment survives removal of a trailing byte that differs
from the pattern's last byte. -/
theorem containsL_dropLastByte (pat : List Char) (hne : pat ≠ []) :
    ∀ (xs : List Char) (c : Char), containsL (xs ++ [c]) pat = true →
      pat.getLast? ≠ some c → containsL xs pat = true := by
  intro xs
  induction xs with
  | nil =>
      intro c h hl
      simp only [List.nil_append, containsL] at h
      rw [Bool.or_eq_true] at h
      rcases h with h1 | h2
      · cases pat with
        | nil => exact absurd rfl hne
        | cons p ps =>
            simp only [leadMatch] at h1
            rw [Bool.and_eq_true] at h1
            obtain ⟨hp, hps⟩ := h1
            cases ps with
            | nil => exact absurd (by rw [eq_of_beq hp]; simp :
                (p :: ([] : List Char)).getLast? = some c) hl
            | cons q qs => simp [leadMatch] at hps
      · cases pat with
        | nil => exact absurd rfl hne
        | cons p ps => simp [containsL, leadMatch] at h2
  | cons x t ih =>
      intro c h hl
      simp only [List.cons_append, containsL] at h
      rw [Bool.or_eq_true] at h
      rcases h with h1 | h2
      · have hres := leadMatch_dropLastByte pat (x :: t) c h1 hl
        simp [containsL, hres]
      · have hres := ih c h2 hl
        simp [containsL, hres]

/-- Every byte of a matched leading segment occurs in the searched list. -/
theorem leadMatch_subset (pat : List Char) :
    ∀ s : List Char, leadMatch pat s = true → ∀ c ∈ pat, c ∈ s := by
  induction pat with
  | nil =>
      intro s _ c hc
      cases hc
  | cons p ps ih =>
      intro s h c hc
      cases s with
      | nil => simp [leadMatch] at h
      | cons x t =>
          simp only [leadMatch] at h
          rw [Bool.and_eq_true] at h
          obtain ⟨hp, hrest⟩ := h
          rcases List.mem_cons.mp hc with rfl | hc'
          · rw [eq_of_beq hp]
            exact List.mem_cons_self _ _
          · exact List.mem_cons_of_mem _ (ih t hrest c hc')

/-- Every byte of a contained pattern occurs in the searched list. -/
theorem containsL_subset (s pat : List Char) (h : containsL s pat = true) :
    ∀ c ∈ pat, c ∈ s := by
  induction s with
  | nil =>
      intro c hc
      cases pat with
      | nil => cases hc
      | cons p ps => simp [containsL, leadMatch] at h
  | cons x t ih =>
      simp only [containsL] at h
      rw [Bool.or_eq_true] at h
      rcases h with h1 | h2
      · exact leadMatch_subset _ _ h1
      · intro c hc
        exact List.mem_cons_of_mem _ (ih h2 c hc)

/-- Every character produced by the decimal formatter core is a digit
character. -/
theorem natToDecAux_digits : ∀ (fuel n : Nat) (c : Char),
    c ∈ natToDecAux fuel n → ∃ d, d < 10 ∧ c = digitChar d := by
  intro fuel
  induction fuel with
  | zero =>
      intro n c hc
      cases hc
  | succ f ih =>
      intro n c hc
      simp only [natToDecAux] at hc
      by_cases h : n < 10
      · rw [if_pos h] at hc
        exact ⟨n, h, List.mem_singleton.mp hc⟩
      · rw [if_neg h] at hc
        rcases List.mem_append.mp hc with h1 | h2
        · exact ih (n / 10) c h1
        · exact ⟨n % 10, Nat.mod_lt _ (by omega), List.mem_singleton.mp h2⟩

/-- Digit characters are never the escape byte. -/
theorem digitChar_ne_esc (d : Nat) (h : d < 10) : digitChar d ≠ '\x1b' := by
  interval_cases d <;> decide

/-- Decimal renderings never contain the escape byte. -/
theorem esc_notin_natToDec (n : Nat) : '\x1b' ∉ natToDec n := by
  intro hc
  obtain ⟨d, hd, he⟩ := natToDecAux_digits _ _ _ hc
  exact digitChar_ne_esc d hd he.symm

/-- Zero padding never introduces the escape byte. -/
theorem esc_notin_padZeros (w : Nat) (s : List Char) (h : '\x1b' ∉ s) :
    '\x1b' ∉ padZeros w s := by
  intro hc
  rcases List.mem_append.mp hc with h1 | h2
  · exact absurd (List.eq_of_mem_replicate h1) (by decide)
  · exact h h2

/-- The rendered clock never contains the escape byte. -/
theorem esc_notin_fmtClock (t : GoTime) : '\x1b' ∉ fmtClock t := by
  intro hc
  unfold fmtClock at hc
  rcases List.mem_append.mp hc with hABC | hD
  · rcases List.mem_append.mp hABC with hAB | hC
    · rcases List.mem_append.mp hAB with hA | hB
      · exact esc_notin_padZeros _ _ (esc_notin_natToDec _) hA
      · rcases List.mem_cons.mp hB with h | h
        · exact absurd h (by decide)
        · exact esc_notin_padZeros _ _ (esc_notin_natToDec _) h
    · rcases List.mem_cons.mp hC with h | h
      · exact absurd h (by decide)
      · exact esc_notin_padZeros _ _ (esc_notin_natToDec _) h
  · rcases List.mem_cons.mp hD with h | h
    · exact absurd h (by decide)
    · exact esc_notin_padZeros _ _ (esc_notin_natToDec _) h

/-- No level name contains the escape byte. -/
theorem esc_notin_levelString (l : Int) : '\x1b' ∉ levelString l := by
  unfold levelString
  split
  · decide
  · split
    · decide
    · split
      · decide
      · split
        · decide
        · decide

/-- Memberships of the insertion step of the sort. -/
theorem mem_insertSorted (x y : List Char) (l : List (List Char))
    (h : y ∈ insertSorted x l) : y = x ∨ y ∈ l := by
  induction l with
  | nil => exact Or.inl (List.mem_singleton.mp h)
  | cons z t ih =>
      simp only [insertSorted] at h
      by_cases hc : charListLe x z = true
      · rw [if_pos hc] at h
        rcases List.mem_cons.mp h with rfl | h2
        · exact Or.inl rfl
        · exact Or.inr h2
      · rw [if_neg hc] at h
        rcases List.mem_cons.mp h with rfl | h2
        · exact Or.inr (List.mem_cons_self _ _)
        · rcases ih h2 with h3 | h4
          · exact Or.inl h3
          · exact Or.inr (List.mem_cons_of_mem _ h4)

/-- The sort produces no new strings. -/
theorem mem_sortStrings (y : List Char) (l : List (List Char)) :
    y ∈ sortStrings l → y ∈ l := by
  induction l with
  | nil =>
      intro h
      cases h
  | cons x t ih =>
      intro h
      rcases mem_insertSorted x y _ h with rfl | h2
      · exact List.mem_cons_self _ _
      · exact List.mem_cons_of_mem _ (ih h2)

/-- A byte of a separator-join comes from the separator or from one of the
joined strings. -/
theorem mem_joinSep (sep : List Char) (l : List (List Char)) (c : Char)
    (h : c ∈ joinSep sep l) : c ∈ sep ∨ ∃ x ∈ l, c ∈ x := by
  induction l with
  | nil => cases h
  | cons x t ih =>
      cases t with
      | nil =>
          simp only [joinSep] at h
          exact Or.inr ⟨x, List.mem_cons_self _ _, h⟩
      | cons y t' =>
          simp only [joinSep] at h
          rcases List.mem_append.mp h with h1 | h2
          · rcases List.mem_append.mp h1 with h1a | h1b
            · exact Or.inr ⟨x, List.mem_cons_self _ _, h1a⟩
            · exact Or.inl h1b
          · rcases ih h2 with h3 | ⟨z, hz, hcz⟩
            · exact Or.inl h3
            · exact Or.inr ⟨z, List.mem_cons_of_mem _ hz, hcz⟩

/-- With the color flag clear and escape-free rendered fields, the whole
prefix contains no escape byte. -/
theorem esc_notin_formatPrefix (p : Printer) (level : Int) (gid : Nat)
    (now : GoTime) (hc : p.flags &&& FlagWithColor = 0)
    (hf : ∀ kv ∈ p.fields, '\x1b' ∉ renderField p kv.1 kv.2) :
    '\x1b' ∉ formatPrefix p level gid now := by
  intro hmem
  simp only [formatPrefix] at hmem
  rw [if_neg (fun hne => hne hc)] at hmem
  rcases List.mem_cons.mp hmem with hbr | hmem2
  · exact absurd hbr (by decide)
  rcases List.mem_append.mp hmem2 with hjoin | htail
  · rcases mem_joinSep _ _ _ hjoin with hsep | ⟨x, hx, hcx⟩
    · exact absurd hsep (by decide)
    · rcases List.mem_append.mp hx with hABC | hD
      · rcases List.mem_append.mp hABC with hAB | hC
        · rcases List.mem_append.mp hAB with hA | hB
          · by_cases hg : p.flags &&& FlagWithGoroutineID ≠ 0
            · rw [if_pos hg] at hA
              have hxe := List.mem_singleton.mp hA
              subst hxe
              exact esc_notin_padZeros _ _ (esc_notin_natToDec _) hcx
            · rw [if_neg hg] at hA
              cases hA
          · by_cases hd : p.flags &&& FlagWithDate ≠ 0
            · rw [if_pos hd] at hB
              have hxe := List.mem_singleton.mp hB
              subst hxe
              exact esc_notin_fmtClock _ hcx
            · rw [if_neg hd] at hB
              cases hB
        · have hxe := List.mem_singleton.mp hC
          subst hxe
          exact esc_notin_levelString _ hcx
      · by_cases hl : p.fields.length > 0
        · rw [if_pos hl] at hD
          have hxe := List.mem_singleton.mp hD
          subst hxe
          rcases mem_joinSep _ _ _ hcx with hsep2 | ⟨y, hy, hcy⟩
          · exact absurd hsep2 (by decide)
          · have hy2 := mem_sortStrings _ _ hy
            obtain ⟨kv, hkv, hyr⟩ := List.mem_map.mp hy2
            subst hyr
            exact hf kv hkv hcy
        · rw [if_neg hl] at hD
          cases hD
  · exact absurd htail (by decide)

/-- C10: with the color flag clear, `formatColor` returns its input buffer
unchanged; the bytes `writeTo` hands to the sink contain the ANSI escape
lead-in only if the input message already did; and the prefix builder
produces no escape lead-in as long as the attached field renderings are
escape-free — so no write path introduces an ANSI escape sequence. -/
theorem no_color_no_escape (p : Printer) (b : List Char) (level : Int)
    (gid : Nat) (now : GoTime) (hc : p.flags &&& FlagWithColor = 0) :
    formatColor p b = b ∧
    (containsL b "\x1b[".data = false →
      containsL (writeToPayload p b) "\x1b[".data = false) ∧
    ((∀ kv ∈ p.fields, '\x1b' ∉ renderField p kv.1 kv.2) →
      containsL (formatPrefix p level gid now) "\x1b[".data = false) := by
  have hfc : formatColor p b = b := by
    simp [formatColor, hc]
  refine ⟨hfc, ?_, ?_⟩
  · intro hb
    simp only [writeToPayload, hfc]
    by_cases hn : p.flags &&& FlagWithoutNewLine = 0
    · rw [if_pos hn]
      by_cases hs : hasSuffixL b ['\n'] = true
      · rw [if_pos hs]
        exact hb
      · rw [if_neg hs]
        cases hcontain : containsL (b ++ ['\n']) "\x1b[".data
        · rfl
        · have hres := containsL_dropLastByte "\x1b[".data (by decide) b '\n'
            hcontain (by decide)
          simp [hb] at hres
    · rw [if_neg hn]
      exact hb
  · intro hf
    cases hcontain : containsL (formatPrefix p level gid now) "\x1b[".data
    · rfl
    · have hmem := containsL_subset _ _ hcontain '\x1b' (by decide)
      exact absurd hmem (esc_notin_formatPrefix p level gid now hc hf)

/-- A color-disabled printer with date, goroutine id and one attached
field. -/
def pNoColor : Printer :=
  { out := none, err := none, logLevel := LevelDebug,
    flags := FlagWithDate ||| FlagWithGoroutineID,
    fields := [("k".data, .str "v".data)],
    maxLogLength := 0, maxFieldLength := 0 }

/-- Witness for C10 at a concrete color-disabled printer. -/
theorem no_color_no_escape_witness :
    pNoColor.flags &&& FlagWithColor = 0 ∧
    (formatColor pNoColor "hi".data = "hi".data ∧
     (containsL "hi".data "\x1b[".data = false →
       containsL (writeToPayload pNoColor "hi".data) "\x1b[".data = false) ∧
     ((∀ kv ∈ pNoColor.fields, '\x1b' ∉ renderField pNoColor kv.1 kv.2) →
       containsL (formatPrefix pNoColor LevelInfo 5 ⟨1, 2, 3, 4⟩)
         "\x1b[".data = false)) :=
  ⟨by decide,
   no_color_no_escape pNoColor "hi".data LevelInfo 5 ⟨1, 2, 3, 4⟩ (by decide)⟩

end PrinterGo
